import Mathlib

/-!
Verification of the orchestration core of the AI agent marketplace
orchestrator, as a shallow embedding of the Python source.

The embedding covers:
* `build_execution_groups` (tasks.py lines 67-86) — the DAG leveler;
* `aggregate_results` (tasks.py lines 361-380) — the result aggregator;
* `run_agent_in_sandbox` (tasks.py lines 240-267) — the execution engine with
  its circuit breaker and retry loop; the external execution backend (the
  Docker sandbox) and the Redis failure counters are made explicit state;
* `execute_subtasks_async` (tasks.py lines 211-235) and
  `handle_failures_and_retries` (tasks.py lines 342-351);
* `orchestrate_workflow` (tasks.py lines 133-209) — the state machine, with
  the external intent parser, agent selector, fallback lookup and the Redis
  caches made explicit;
* `rank_agents`, `semantic_search_agents` and `select_agents_for_intent`
  (vector_store.py lines 64-128) — the agent selector.

Machine floats of the source are modelled by exact rationals, and Python
dicts by association lists looked up front-to-back (a later overwrite is a
shadowing prepend).  Python exceptions are modelled by `Except String`.
-/

namespace Orchestrator

/-! ## Definitions -/

/-! ### DAG leveler: `build_execution_groups` (tasks.py lines 67-86)

The Python source iterates over a dict `workflow_plan` whose values carry a
`"dependencies"` list (`plan.get("dependencies", [])`).  We model the dict
as an association list `List (String × List String)` pairing each subtask
with its dependency list; dict keys are unique, which appears as a `Nodup`
hypothesis on the theorems.  The loop guard `len(completed) < len(workflow_plan)`
is rendered as "some key is not yet completed": `completed` starts empty and
only ever receives keys not previously completed, so for a dict (whose keys
are distinct) the two guards agree. -/

/-- The keys of the dependency map (`workflow_plan.keys()`). -/
def keysOf (plan : List (String × List String)) : List String :=
  plan.map Prod.fst

/-- The not-yet-scheduled subtasks (`set(workflow_plan.keys()) - completed`). -/
def remainingOf (plan : List (String × List String)) (completed : List String) :
    List String :=
  (keysOf plan).filter (fun k => !(completed.contains k))

/-- One pass of the level-collection loop: the subtasks not in `completed`
all of whose dependencies are in `completed`. -/
def levelStep (plan : List (String × List String)) (completed : List String) :
    List String :=
  (plan.filter (fun p => !(completed.contains p.1) && p.2.all completed.contains)).map
    Prod.fst

/-- The `while` loop of `build_execution_groups`: collect a level, falling back
to all remaining subtasks when no subtask qualifies ("Break circular
dependencies"), until everything is completed.  The fallback
`list(set(workflow_plan.keys()) - completed)` enumerates a Python set in
unspecified order; the model keeps key order (every property proved below
is insensitive to the order within a level). -/
def begAux (plan : List (String × List String)) (completed : List String) :
    List (List String) :=
  if h : remainingOf plan completed = [] then []
  else
    let step := levelStep plan completed
    let lvl := if step = [] then remainingOf plan completed else step
    lvl :: begAux plan (completed ++ lvl)
termination_by (remainingOf plan completed).length
decreasing_by
  show (remainingOf plan (completed ++ (if levelStep plan completed = [] then
    remainingOf plan completed else levelStep plan completed))).length <
    (remainingOf plan completed).length
  have hsub : ∀ x, x ∈ (if levelStep plan completed = [] then
      remainingOf plan completed else levelStep plan completed) →
      x ∈ remainingOf plan completed := by
    intro x hx
    by_cases hs : levelStep plan completed = []
    · simpa [hs] using hx
    · rw [if_neg hs] at hx
      simp only [levelStep, List.mem_map, List.mem_filter] at hx
      obtain ⟨p, ⟨hp, hcond⟩, hfst⟩ := hx
      simp only [Bool.and_eq_true] at hcond
      simp only [remainingOf, keysOf, List.mem_filter, List.mem_map]
      exact ⟨⟨p, hp, hfst⟩, by rw [← hfst]; exact hcond.1⟩
  have hne : (if levelStep plan completed = [] then remainingOf plan completed
      else levelStep plan completed) ≠ [] := by
    by_cases hs : levelStep plan completed = [] <;> simp [hs, h]
  obtain ⟨x, hx⟩ := List.exists_mem_of_ne_nil _ hne
  have heq : remainingOf plan (completed ++ (if levelStep plan completed = []
      then remainingOf plan completed else levelStep plan completed)) =
      (remainingOf plan completed).filter (fun k =>
        !((if levelStep plan completed = [] then remainingOf plan completed
          else levelStep plan completed).contains k)) := by
    simp only [remainingOf, List.filter_filter]
    apply List.filter_congr
    intro a _
    by_cases h1 : a ∈ completed <;>
      by_cases h2 : a ∈ (if levelStep plan completed = [] then
        remainingOf plan completed else levelStep plan completed) <;>
      simp [h1, h2]
  rw [heq]
  apply List.length_filter_lt_length_iff_exists.mpr
  exact ⟨x, hsub x hx, by simp [hx]⟩

/-- `build_execution_groups(workflow_plan, selected_agents)`; the
`selected_agents` argument is unused by the source function. -/
def build_execution_groups (plan : List (String × List String)) :
    List (List String) :=
  begAux plan []

/-- The level the loop actually appends: the qualifying subtasks, or all
remaining ones when none qualifies. -/
def lvlOf (plan : List (String × List String)) (completed : List String) :
    List String :=
  if levelStep plan completed = [] then remainingOf plan completed
  else levelStep plan completed

/-- The dependency relation read off the map: `depRel plan a b` holds when `a`
is listed among the dependencies of `b`.  The map is acyclic exactly when
this (finite) relation is well-founded. -/
def depRel (plan : List (String × List String)) (a b : String) : Prop :=
  ∃ p ∈ plan, p.1 = b ∧ a ∈ p.2

/-! ### Per-subtask outcomes and the result aggregator
(`aggregate_results`, tasks.py lines 361-380)

A per-subtask outcome dict (`{"status": ..., "result": ..., "error": ...,
"agent_id": ...}`) is modelled as a structure of `Option`s for the keys that
are present only in some shapes; the backend result payload is modelled by
its output string. -/

structure TaskResult where
  status : String
  result : Option String := none
  error : Option String := none
  agent_id : Option String := none
deriving DecidableEq

structure Summary where
  total : ℕ
  success : ℕ
  failed : ℕ
  success_rate : ℚ
deriving DecidableEq

structure AggResult where
  summary : Summary
  results : List (String × TaskResult)
  errors : List (String × TaskResult)
  aggregated_output : String
  parallel_groups_executed : ℕ
deriving DecidableEq

/-- `aggregate_results(results)` (tasks.py lines 361-380).  The
`success_rate` mirrors `len(successes) / len(results) if results else 0`;
`aggregated_output` mirrors `"\n".join(f"{k}: {v['result']}" ...)` over the
successes (success outcomes always carry a `result` payload, so the
`getD ""` default is never exercised on reachable inputs); the
`execution_metrics` entry `parallel_groups_executed` mirrors
`len(build_execution_groups({}, {}))`. -/
def aggregate_results (results : List (String × TaskResult)) : AggResult :=
  let successes := results.filter (fun kv => kv.2.status == "success")
  let failures := results.filter (fun kv => kv.2.status == "failed")
  { summary :=
      { total := results.length
        success := successes.length
        failed := failures.length
        success_rate :=
          if results.isEmpty then 0
          else (successes.length : ℚ) / (results.length : ℚ) }
    results := successes
    errors := failures
    aggregated_output :=
      String.intercalate "\n"
        (successes.map (fun kv => kv.1 ++ ": " ++ kv.2.result.getD ""))
    parallel_groups_executed := (build_execution_groups []).length }

/-! ### Execution engine: `run_agent_in_sandbox` (tasks.py lines 240-267)

The external execution backend (`DockerSandboxManager.run_agent`) either
raises or returns a dict whose `"success"` flag decides the retry loop; we
model one invocation outcome as `Outcome`.  The shared Redis failure
counters (`agent_health:<id>`, with `INCR`/`EXPIRE 300`/`DELETE`) and the
sequence of backend outcomes are carried in an explicit environment `Env`:
`script` maps the global invocation counter `calls` to that invocation's
outcome, and `health` maps an agent id to its counter value and expiry
time (a key is visible only while `now` is before its expiry, mirroring
Redis TTL). -/

inductive Outcome where
  | raise (msg : String)
  | ret (success : Bool) (output : String)
deriving DecidableEq

def outcomeSuccess : Outcome → Bool
  | .ret true _ => true
  | _ => false

structure Env where
  script : ℕ → Outcome
  calls : ℕ
  health : String → Option (ℕ × ℕ)
  now : ℕ

/-- `redis_client.get(agent_health_key)`: the counter, when unexpired. -/
def envGetHealth (env : Env) (k : String) : Option ℕ :=
  match env.health k with
  | some (v, e) => if env.now < e then some v else none
  | none => none

/-- `redis_client.delete(agent_health_key)`. -/
def envDelHealth (env : Env) (k : String) : Env :=
  { env with health := fun x => if x = k then none else env.health x }

/-- `redis_client.incr(agent_health_key)` followed by
`redis_client.expire(agent_health_key, 300)` (one combined update, as the
source always pairs them): an expired or absent key restarts at 1. -/
def envIncrExpire (env : Env) (k : String) : Env :=
  let v := (envGetHealth env k).getD 0 + 1
  { env with health := fun x =>
      if x = k then some (v, env.now + 300) else env.health x }

/-- The selected-agent dict fields the execution engine reads (`agent["id"]`;
`docker_image`/`name` only choose the sandbox image, which the backend
outcome script absorbs). -/
structure SelAgent where
  id : String
  name : String
deriving DecidableEq

/-- The `for attempt in range(max_retries)` loop: each attempt invokes the
backend once; a raised exception or a falsy `"success"` moves to the next
attempt; a truthy `"success"` returns the payload. -/
def runAttempts : ℕ → Env → Option String × Env
  | 0, env => (none, env)
  | n + 1, env =>
    let out := env.script env.calls
    let env' := { env with calls := env.calls + 1 }
    match out with
    | .ret true o => (some o, env')
    | _ => runAttempts n env'

/-- The body of `run_agent_in_sandbox` past the circuit-breaker check:
retry loop, then on success delete the failure counter and return the
success dict, otherwise increment the counter once, reset its expiry and
return the failure dict. -/
def runClosedCircuit (agent : SelAgent) (max_retries : ℕ) (env : Env) :
    TaskResult × Env :=
  match runAttempts max_retries env with
  | (some o, env') =>
    ({ status := "success", result := some o, agent_id := some agent.id },
      envDelHealth env' agent.id)
  | (none, env') =>
    ({ status := "failed", error := some "Max retries exceeded",
       agent_id := some agent.id }, envIncrExpire env' agent.id)

/-- `run_agent_in_sandbox(agent, subtask, max_retries)` (tasks.py lines
240-267): read the shared failure counter first; `if failure_count and
int(failure_count) > 5` short-circuit with a FAILED result and no backend
invocation; otherwise run the retry loop. -/
def run_agent_in_sandbox (agent : SelAgent) (subtask : String)
    (max_retries : ℕ) (env : Env) : TaskResult × Env :=
  match envGetHealth env agent.id with
  | some c =>
    if 5 < c then
      ({ status := "failed",
         error := some "Agent temporarily disabled due to high failure rate" },
        env)
    else runClosedCircuit agent max_retries env
  | none => runClosedCircuit agent max_retries env

/-! ### Level dispatch: `execute_subtasks_async` (tasks.py lines 211-235)

Per level, the Celery group holds one `run_agent_in_sandbox_task` per
subtask **with** a selected agent (`for subtask in level if subtask in
selected_agents`), and `group_result.get()` returns their results in that
order; the shared Redis state threads through the dispatches (their
interleaving does not affect any property below).  The mapping-back loop
`for i, subtask in enumerate(level)` indexes that result list by the
position in the **full** level, so a missing index is an `IndexError`,
modelled by `Except.error`. -/

def alookup {α : Type} (k : String) : List (String × α) → Option α
  | [] => none
  | (k', v) :: rest => if k = k' then some v else alookup k rest

def dispatchGroup (selected : List (String × SelAgent)) (level : List String)
    (env : Env) : List TaskResult × Env :=
  match level with
  | [] => ([], env)
  | s :: rest =>
    match alookup s selected with
    | some ag =>
      let r := run_agent_in_sandbox ag s 3 env
      let rs := dispatchGroup selected rest r.2
      (r.1 :: rs.1, rs.2)
    | none => dispatchGroup selected rest env

def mapBackAux (selected : List (String × SelAgent)) (lres : List TaskResult) :
    List String → ℕ → Except String (List (String × TaskResult))
  | [], _ => .ok []
  | s :: rest, i =>
    match alookup s selected with
    | some _ =>
      match lres[i]? with
      | some r =>
        (mapBackAux selected lres rest (i + 1)).map (fun acc => (s, r) :: acc)
      | none => .error "IndexError: list index out of range"
    | none =>
      (mapBackAux selected lres rest (i + 1)).map
        (fun acc =>
          (s, { status := "failed", error := some "No agent selected" }) :: acc)

def executeLevels (selected : List (String × SelAgent)) (env : Env) :
    List (List String) → Except String (List (String × TaskResult)) × Env
  | [] => (.ok [], env)
  | lvl :: rest =>
    let d := dispatchGroup selected lvl env
    match mapBackAux selected d.1 lvl 0 with
    | .ok entries =>
      let r := executeLevels selected d.2 rest
      (r.1.map (fun acc => entries ++ acc), r.2)
    | .error e => (.error e, d.2)

/-- `execute_subtasks_async(workflow_plan, selected_agents)` (tasks.py lines
211-235). -/
def execute_subtasks_async (plan : List (String × List String))
    (selected : List (String × SelAgent)) (env : Env) :
    Except String (List (String × TaskResult)) × Env :=
  executeLevels selected env (build_execution_groups plan)

/-! ### Failover: `handle_failures_and_retries` (tasks.py lines 342-351)

For each failed entry the source evaluates `selected_agents[subtask]["id"]`
— a `KeyError` when the subtask never got an agent — and, when
`find_fallback_agent` (an external DB query, here a parameter) returns an
agent, passes that SQLAlchemy `Agent` ORM object to `run_agent_in_sandbox`,
which immediately evaluates `agent.get("docker_image")`: the `Agent` model
(src/orchastrator/models/database.py) has no `get` method, so this raises
`AttributeError` before any backend call.  Both exceptions propagate to the
orchestration-level handler. -/

def handle_failures_and_retries
    (fallbackAgent : String → String → Option SelAgent)
    (selected : List (String × SelAgent)) (env : Env) :
    List (String × TaskResult) →
      Except String (List (String × TaskResult)) × Env
  | [] => (.ok [], env)
  | (s, r) :: rest =>
    if r.status = "failed" then
      match alookup s selected with
      | none => (.error "KeyError", env)
      | some cur =>
        match fallbackAgent s cur.id with
        | some _ =>
          (.error "AttributeError: Agent object has no attribute get", env)
        | none =>
          let t := handle_failures_and_retries fallbackAgent selected env rest
          (t.1.map (fun acc => (s, r) :: acc), t.2)
    else
      let t := handle_failures_and_retries fallbackAgent selected env rest
      (t.1.map (fun acc => (s, r) :: acc), t.2)

/-! ### State machine: `orchestrate_workflow` (tasks.py lines 133-209)

The orchestration DB row, the Redis workflow/agent-selection caches and the
execution environment form the `World`; the external intent parser
(`parse_workflow_with_llm`, which may raise), the agent selector
(`select_agents_for_intent`) and the fallback DB query are the `Externals`.
`parserCalls`/`selectorCalls` count invocations of the externals.  The
`try/except` of the source catches any exception from parsing, dispatch or
failover, sets the status to FAILED and returns `{"error": str(e)}`. -/

structure Workflow where
  subtasks : List String
  dependencies : List (String × List String)
deriving DecidableEq

structure OrchRec where
  user_input : String
  current_status : String
  subtasks : List String
  results : Option AggResult
deriving DecidableEq

structure World where
  orch : Option OrchRec
  wfCache : List (String × Workflow)
  agCache : List (String × List SelAgent)
  env : Env
  parserCalls : ℕ
  selectorCalls : ℕ

structure Externals where
  parser : String → Except String Workflow
  selector : String → List SelAgent
  fallbackAgent : String → String → Option SelAgent

inductive Ret where
  | err (msg : String)
  | ok (r : AggResult)
deriving DecidableEq

/-- STEP 2 of `orchestrate_workflow`: per subtask, a cached non-empty agent
list is reused (`if cached_agents:` — a cached empty list is falsy, hence a
miss); otherwise the selector runs and, when it returns candidates, the
head is selected and the list cached. -/
def selectLoop (ext : Externals) :
    List String → World → List (String × SelAgent) × World
  | [], w => ([], w)
  | s :: rest, w =>
    match alookup s w.agCache with
    | some (a :: _) =>
      let t := selectLoop ext rest w
      ((s, a) :: t.1, t.2)
    | _ =>
      let w1 := { w with selectorCalls := w.selectorCalls + 1 }
      match ext.selector s with
      | a :: cs =>
        let w2 := { w1 with agCache := (s, a :: cs) :: w1.agCache }
        let t := selectLoop ext rest w2
        ((s, a) :: t.1, t.2)
      | [] => selectLoop ext rest w1

/-- The `except` branch: set the status to FAILED (the row, fetched inside
the `try`, is present whenever this branch can run). -/
def failWorld (w : World) : World :=
  { w with orch := w.orch.map (fun o => { o with current_status := "FAILED" }) }

/-- STEPS 2-5 of `orchestrate_workflow`, after a workflow was obtained:
persist the subtask list, select agents, dispatch the DAG levels, run the
failover pass, aggregate, store the results and set COMPLETED. -/
def orchestrateFrom (ext : Externals) (w : World) (o1 : OrchRec)
    (wf : Workflow) : Ret × World :=
  let o2 := { o1 with subtasks := wf.subtasks }
  let w4 := { w with orch := some o2 }
  let sel := selectLoop ext wf.subtasks w4
  let w5 := sel.2
  let ex := execute_subtasks_async wf.dependencies sel.1 w5.env
  let w6 := { w5 with env := ex.2 }
  match ex.1 with
  | .error e => (.err e, failWorld w6)
  | .ok results =>
    let hf := handle_failures_and_retries ext.fallbackAgent sel.1 w6.env results
    let w7 := { w6 with env := hf.2 }
    match hf.1 with
    | .error e => (.err e, failWorld w7)
    | .ok results2 =>
      let final := aggregate_results results2
      let o3 := { o2 with results := some final, current_status := "COMPLETED" }
      (.ok final, { w7 with orch := some o3 })

/-- `orchestrate_workflow(orchestration_id)` (tasks.py lines 133-209): fetch
the row (error dict when absent), set EXECUTING unconditionally, parse with
the workflow cache, then run the pipeline; any exception sets FAILED and
returns the error. -/
def orchestrate_workflow (ext : Externals) (w0 : World) : Ret × World :=
  match w0.orch with
  | none => (.err "Orchestration not found", w0)
  | some o =>
    let o1 := { o with current_status := "EXECUTING" }
    let w1 := { w0 with orch := some o1 }
    match alookup o1.user_input w1.wfCache with
    | some wf => orchestrateFrom ext w1 o1 wf
    | none =>
      let w2 := { w1 with parserCalls := w1.parserCalls + 1 }
      match ext.parser o1.user_input with
      | .error e => (.err e, failWorld w2)
      | .ok wf =>
        let w3 := { w2 with wfCache := (o1.user_input, wf) :: w2.wfCache }
        orchestrateFrom ext w3 o1 wf

/-! ### Agent selector: `vector_store.py` (lines 64-128)

`get_embedding` (an OpenAI call) is an external collaborator and enters as a
parameter `embed`; the `agents` table of the external store is a list of
rows.  `np.linalg.norm`'s float square root is modelled by `ratSqrt`,
which is exact whenever the sum of squares is a ratio of perfect squares
(as in every concrete vector used below).  The SQL
`ORDER BY embedding <-> %s LIMIT %s` of `semantic_search_agents` orders by
euclidean distance; sorting by squared distance yields the same order
(the square root is monotone).  Python's `sorted(..., reverse=True)` is a
stable descending sort, modelled by a stable insertion sort. -/

namespace VectorStore

structure AgentRow where
  id : String
  name : String
  reputation_score : ℚ
  reliability : ℚ
  avg_latency : ℚ
  embedding : List ℚ
  score : ℚ := 0
deriving DecidableEq

def dot (a b : List ℚ) : ℚ := (List.zipWith (· * ·) a b).sum

/-- Exact model of the float square root on the perfect-square ratios
arising below. -/
def ratSqrt (q : ℚ) : ℚ := (Nat.sqrt q.num.toNat : ℚ) / (Nat.sqrt q.den : ℚ)

/-- `cosine_similarity(vec_a, vec_b)` (vector_store.py lines 105-108):
`np.dot(a, b) / (np.linalg.norm(a) * np.linalg.norm(b))`. -/
def cosine_similarity (a b : List ℚ) : ℚ :=
  dot a b / (ratSqrt (dot a a) * ratSqrt (dot b b))

/-- Stable insertion: `x` goes before the first element it must strictly
precede, after any tie. -/
def insertSorted {α : Type} (before : α → α → Bool) (x : α) :
    List α → List α
  | [] => [x]
  | y :: ys =>
    if before x y then x :: y :: ys else y :: insertSorted before x ys

/-- Stable insertion sort (the order Python's stable `sorted` produces for a
strict `before`). -/
def sortStable {α : Type} (before : α → α → Bool) : List α → List α
  | [] => []
  | x :: xs => insertSorted before x (sortStable before xs)

/-- `rank_agents(agents, query_embedding)` (vector_store.py lines 111-121):
`score = sim * 0.6 + reliability * 0.3 + (1.0 / (latency + 1)) * 0.1`,
stored on the agent, then `sorted(..., key=score, reverse=True)`. -/
def rank_agents (agents : List AgentRow) (query_embedding : List ℚ) :
    List AgentRow :=
  sortStable (fun x y => decide (y.score < x.score))
    (agents.map (fun agent =>
      let sim := cosine_similarity query_embedding agent.embedding
      let reliability := agent.reliability
      let latency := agent.avg_latency
      { agent with
        score := sim * (6/10) + reliability * (3/10) +
          1 / (latency + 1) * (1/10) }))

def l2distSq (a b : List ℚ) : ℚ :=
  ((List.zipWith (· - ·) a b).map (fun x => x * x)).sum

/-- `semantic_search_agents(query, top_k)` (vector_store.py lines 64-101):
embed the query, order the stored rows by euclidean distance to it, return
the first `top_k` together with the query embedding. -/
def semantic_search_agents (embed : String → List ℚ) (db : List AgentRow)
    (query : String) (top_k : ℕ) : List AgentRow × List ℚ :=
  let e := embed query
  ((sortStable (fun a b =>
    decide (l2distSq a.embedding e < l2distSq b.embedding e)) db).take top_k, e)

/-- `select_agents_for_intent(user_input, top_k)` (vector_store.py lines
125-128): the vector search then the ranking. -/
def select_agents_for_intent (embed : String → List ℚ) (db : List AgentRow)
    (user_input : String) (top_k : ℕ) : List AgentRow :=
  let sr := semantic_search_agents embed db user_input top_k
  rank_agents sr.1 sr.2

/-- The final-score formula exactly as the specification words it
(`0.7·cosineSimilarity + 0.3·(reputation/100)`), for comparison with the
score the source computes. -/
def specFinalScore (query_embedding : List ℚ) (a : AgentRow) : ℚ :=
  (7/10) * cosine_similarity query_embedding a.embedding +
    (3/10) * (a.reputation_score / 100)

end VectorStore

/-! ### Concrete scenario data for the claims -/

/-- An agent row orthogonal to the query embedding, with zero reliability,
latency and reputation. -/
def agentRow0 : VectorStore.AgentRow :=
  { id := "a0", name := "agent zero", reputation_score := 0, reliability := 0,
    avg_latency := 0, embedding := [0, 1] }

/-- A concrete embedder: every text embeds to `[1, 0]`. -/
def embed0 : String → List ℚ := fun _ => [1, 0]

def agentA : SelAgent := { id := "agent-1", name := "alpha" }

def envOf (script : ℕ → Outcome) : Env :=
  { script := script, calls := 0, health := fun _ => none, now := 0 }

/-- A backend that fails (raises) twice, then succeeds. -/
def scriptFailTwice : ℕ → Outcome :=
  fun i => if i < 2 then .raise "boom" else .ret true "ok"

/-- A backend that always raises. -/
def scriptAllFail : ℕ → Outcome := fun _ => .raise "boom"

/-- A backend that always succeeds. -/
def scriptAllOk : ℕ → Outcome := fun _ => .ret true "ok"

/-- One execution of `agentA` with a retry budget of 1. -/
def callOnce (env : Env) : Env := (run_agent_in_sandbox agentA "sub" 1 env).2

/-- An environment whose failure counter for `agentA` is 6 and unexpired. -/
def envOpen : Env :=
  { script := scriptAllOk, calls := 0,
    health := fun k => if k = "agent-1" then some (6, 300) else none,
    now := 0 }

/-- A two-subtask level where only `b` has a selected agent. -/
def planC5 : List (String × List String) := [("a", []), ("b", [])]

def selC5 : List (String × SelAgent) := [("b", agentA)]

/-- A one-subtask workflow. -/
def wfSingle : Workflow := { subtasks := ["t"], dependencies := [("t", [])] }

/-- Externals whose parser always yields `wfSingle`, whose selector always
offers `agentA` and which never finds a fallback agent. -/
def extOk : Externals :=
  { parser := fun _ => .ok wfSingle, selector := fun _ => [agentA],
    fallbackAgent := fun _ _ => none }

/-- Externals whose selector never finds a candidate. -/
def extNoAgents : Externals :=
  { parser := fun _ => .ok wfSingle, selector := fun _ => [],
    fallbackAgent := fun _ _ => none }

/-- A world holding one already-COMPLETED orchestration with stored results,
cold caches and an always-succeeding backend. -/
def orchCompleted : OrchRec :=
  { user_input := "req", current_status := "COMPLETED",
    subtasks := ["t"], results := some (aggregate_results []) }

def worldCompleted : World :=
  { orch := some orchCompleted, wfCache := [], agCache := [],
    env := envOf scriptAllOk, parserCalls := 0, selectorCalls := 0 }

/-- A freshly created orchestration record (status PARSING, nothing
stored). -/
def orchFresh : OrchRec :=
  { user_input := "req", current_status := "PARSING",
    subtasks := [], results := none }

def worldFresh : World :=
  { orch := some orchFresh, wfCache := [], agCache := [],
    env := envOf scriptAllOk, parserCalls := 0, selectorCalls := 0 }

/-- A fresh orchestration over an always-failing backend. -/
def worldFreshFailing : World :=
  { orch := some orchFresh, wfCache := [], agCache := [],
    env := envOf scriptAllFail, parserCalls := 0, selectorCalls := 0 }

/-- The spec's aggregator example: one success, one failure. -/
def exMapC8 : List (String × TaskResult) :=
  [("a", { status := "success", result := some "out", agent_id := some "x" }),
   ("b", { status := "failed", error := some "err" })]

/-- The acyclic three-subtask example from the specification. -/
def planSpecExample : List (String × List String) :=
  [("extract", []), ("copywrite", ["extract"]), ("seo", ["extract"])]

/-- The cyclic two-subtask example from the specification. -/
def planCyc : List (String × List String) := [("a", ["b"]), ("b", ["a"])]

/-! ## Theorems -/

/-! ### The DAG leveler -/

theorem mem_remainingOf {plan : List (String × List String)}
    {completed : List String} {x : String} :
    x ∈ remainingOf plan completed ↔ x ∈ keysOf plan ∧ ¬ x ∈ completed := by
  simp [remainingOf, List.mem_filter]

theorem mem_levelStep {plan : List (String × List String)}
    {completed : List String} {x : String} :
    x ∈ levelStep plan completed ↔
      ∃ deps, (x, deps) ∈ plan ∧ ¬ x ∈ completed ∧ ∀ d ∈ deps, d ∈ completed := by
  constructor
  · intro hx
    simp only [levelStep, List.mem_map, List.mem_filter] at hx
    obtain ⟨p, ⟨hp, hcond⟩, hfst⟩ := hx
    simp at hcond
    subst hfst
    exact ⟨p.2, by simpa using hp, hcond.1, hcond.2⟩
  · rintro ⟨deps, hp, hnc, hdeps⟩
    simp only [levelStep, List.mem_map, List.mem_filter]
    refine ⟨(x, deps), ⟨hp, ?_⟩, rfl⟩
    simpa using ⟨hnc, hdeps⟩

theorem levelStep_subset_remaining {plan : List (String × List String)}
    {completed : List String} {x : String}
    (hx : x ∈ levelStep plan completed) : x ∈ remainingOf plan completed := by
  obtain ⟨deps, hp, hnc, -⟩ := mem_levelStep.mp hx
  exact mem_remainingOf.mpr ⟨List.mem_map.mpr ⟨(x, deps), hp, rfl⟩, hnc⟩

theorem remainingOf_append (plan : List (String × List String))
    (completed lvl : List String) :
    remainingOf plan (completed ++ lvl) =
      (remainingOf plan completed).filter (fun k => !(lvl.contains k)) := by
  simp only [remainingOf, List.filter_filter]
  apply List.filter_congr
  intro x _
  by_cases h1 : x ∈ completed <;> by_cases h2 : x ∈ lvl <;> simp [h1, h2]

theorem remaining_decrease {plan : List (String × List String)}
    {completed lvl : List String} (hne : lvl ≠ [])
    (hsub : ∀ x ∈ lvl, x ∈ remainingOf plan completed) :
    (remainingOf plan (completed ++ lvl)).length <
      (remainingOf plan completed).length := by
  rw [remainingOf_append]
  obtain ⟨x, hx⟩ := List.exists_mem_of_ne_nil lvl hne
  apply List.length_filter_lt_length_iff_exists.mpr
  refine ⟨x, hsub x hx, ?_⟩
  simp [hx]

theorem lvlOf_subset {plan : List (String × List String)}
    {completed : List String} {x : String} (hx : x ∈ lvlOf plan completed) :
    x ∈ remainingOf plan completed := by
  unfold lvlOf at hx
  by_cases hs : levelStep plan completed = []
  · simpa [hs] using hx
  · exact levelStep_subset_remaining (by simpa [hs] using hx)

theorem lvlOf_ne_nil {plan : List (String × List String)}
    {completed : List String} (hrem : remainingOf plan completed ≠ []) :
    lvlOf plan completed ≠ [] := by
  unfold lvlOf
  by_cases hs : levelStep plan completed = [] <;> simp [hs, hrem]

theorem begAux_eq_cons (plan : List (String × List String))
    (completed : List String) (hrem : remainingOf plan completed ≠ []) :
    begAux plan completed =
      lvlOf plan completed :: begAux plan (completed ++ lvlOf plan completed) := by
  rw [begAux, dif_neg hrem]; rfl

/-- Recursion principle following the loop of `build_execution_groups`. -/
theorem begAux_rec (plan : List (String × List String))
    (motive : List String → Prop)
    (base : ∀ completed, remainingOf plan completed = [] → motive completed)
    (ind : ∀ completed, remainingOf plan completed ≠ [] →
      motive (completed ++ lvlOf plan completed) → motive completed) :
    ∀ completed, motive completed := by
  have key : ∀ n completed, (remainingOf plan completed).length ≤ n →
      motive completed := by
    intro n
    induction n with
    | zero =>
      intro completed hle
      exact base completed (List.eq_nil_of_length_eq_zero (Nat.le_zero.mp hle))
    | succ n ih =>
      intro completed hle
      by_cases hrem : remainingOf plan completed = []
      · exact base completed hrem
      · refine ind completed hrem (ih _ ?_)
        have hdec := remaining_decrease (lvlOf_ne_nil hrem)
          (fun x hx => lvlOf_subset hx)
        omega
  intro completed
  exact key (remainingOf plan completed).length completed le_rfl

/-- Every level produced by the loop consists of not-yet-completed keys. -/
theorem begAux_levels_subset (plan : List (String × List String)) :
    ∀ completed, ∀ L ∈ begAux plan completed, ∀ x ∈ L,
      x ∈ remainingOf plan completed := by
  refine begAux_rec plan _ ?_ ?_
  · intro completed hrem L hL
    rw [begAux, dif_pos hrem] at hL; simp at hL
  · intro completed hrem ih L hL x hx
    rw [begAux_eq_cons plan completed hrem] at hL
    rcases List.mem_cons.mp hL with h | h
    · subst h; exact lvlOf_subset hx
    · have := ih L h x hx
      rw [remainingOf_append] at this
      exact (List.mem_filter.mp this).1

/-- Membership in the flattened levels is exactly membership in the remaining
key set: the loop schedules every remaining subtask, and nothing else. -/
theorem begAux_flatten_mem (plan : List (String × List String)) :
    ∀ completed, ∀ x, x ∈ (begAux plan completed).flatten ↔
      x ∈ remainingOf plan completed := by
  refine begAux_rec plan _ ?_ ?_
  · intro completed hrem x; rw [begAux, dif_pos hrem, hrem]; simp
  · intro completed hrem ih x
    rw [begAux_eq_cons plan completed hrem]
    simp only [List.flatten_cons, List.mem_append, ih, remainingOf_append,
      List.mem_filter]
    constructor
    · rintro (h | ⟨h, -⟩)
      · exact lvlOf_subset h
      · exact h
    · intro hx
      by_cases hl : x ∈ lvlOf plan completed
      · exact Or.inl hl
      · exact Or.inr ⟨hx, by simpa using hl⟩

/-- With distinct keys, the flattened levels contain no subtask twice. -/
theorem begAux_flatten_nodup (plan : List (String × List String))
    (hk : (keysOf plan).Nodup) :
    ∀ completed, (begAux plan completed).flatten.Nodup := by
  refine begAux_rec plan _ ?_ ?_
  · intro completed hrem; rw [begAux, dif_pos hrem]; simp
  · intro completed hrem ih
    rw [begAux_eq_cons plan completed hrem]
    rw [List.flatten_cons, List.nodup_append]
    have hrnd : (remainingOf plan completed).Nodup := hk.filter _
    refine ⟨?_, ih, ?_⟩
    · unfold lvlOf
      by_cases hs : levelStep plan completed = []
      · simpa [hs] using hrnd
      · simp only [hs, if_neg]
        have hsub : (levelStep plan completed).Sublist (keysOf plan) :=
          (List.filter_sublist plan).map Prod.fst
        exact hsub.nodup hk
    · intro x hx hx'
      have h2 := (begAux_flatten_mem plan _ x).mp hx'
      rw [remainingOf_append] at h2
      have h3 := (List.mem_filter.mp h2).2
      simp at h3
      exact h3 hx

theorem remainingOf_nil (plan : List (String × List String)) :
    remainingOf plan [] = keysOf plan := by
  simp [remainingOf]

/-- In a map with distinct keys, a key determines its dependency list. -/
theorem deps_unique {plan : List (String × List String)}
    (hk : (keysOf plan).Nodup) {s : String} {d1 d2 : List String}
    (h1 : (s, d1) ∈ plan) (h2 : (s, d2) ∈ plan) : d1 = d2 := by
  induction plan with
  | nil => simp at h1
  | cons p rest ih =>
    rw [keysOf, List.map_cons, List.nodup_cons] at hk
    rcases List.mem_cons.mp h1 with e1 | e1
    · cases e1
      rcases List.mem_cons.mp h2 with e2 | e2
      · exact ((Prod.ext_iff.mp e2).2).symm
      · exact absurd (List.mem_map.mpr ⟨(s, d2), e2, rfl⟩) hk.1
    · rcases List.mem_cons.mp h2 with e2 | e2
      · cases e2
        exact absurd (List.mem_map.mpr ⟨(s, d1), e1, rfl⟩) hk.1
      · exact ih hk.2 e1 e2

/-- When the dependency relation is well-founded (the map is acyclic) and
every dependency is a key, the qualifying set is never empty while subtasks
remain: the cycle-breaking fallback is unreachable. -/
theorem levelStep_ne_nil {plan : List (String × List String)}
    {completed : List String}
    (hcl : ∀ p ∈ plan, ∀ d ∈ p.2, d ∈ keysOf plan)
    (hwf : WellFounded (depRel plan))
    (hrem : remainingOf plan completed ≠ []) :
    levelStep plan completed ≠ [] := by
  obtain ⟨x0, hx0⟩ := List.exists_mem_of_ne_nil _ hrem
  obtain ⟨m, hmS, hmin⟩ :=
    hwf.has_min {x | x ∈ remainingOf plan completed} ⟨x0, hx0⟩
  obtain ⟨hmk, hmc⟩ := mem_remainingOf.mp hmS
  obtain ⟨p, hp, hpfst⟩ := List.mem_map.mp hmk
  obtain ⟨pf, pd⟩ := p
  simp only at hpfst
  subst hpfst
  have hdeps : ∀ d ∈ pd, d ∈ completed := by
    intro d hd
    have hrel : depRel plan d pf := ⟨(pf, pd), hp, rfl, hd⟩
    have hdnotS : d ∉ remainingOf plan completed := fun hdS => hmin d hdS hrel
    have hdk : d ∈ keysOf plan := hcl (pf, pd) hp d hd
    by_contra hdc
    exact hdnotS (mem_remainingOf.mpr ⟨hdk, hdc⟩)
  intro hnil
  have hm : pf ∈ levelStep plan completed :=
    mem_levelStep.mpr ⟨pd, hp, hmc, hdeps⟩
  rw [hnil] at hm
  simp at hm

/-- If the map is acyclic and dependency-closed, each scheduled subtask's
dependencies were already completed before its level, i.e. lie in `completed`
or in a strictly earlier level. -/
theorem begAux_deps (plan : List (String × List String))
    (hk : (keysOf plan).Nodup)
    (hcl : ∀ p ∈ plan, ∀ d ∈ p.2, d ∈ keysOf plan)
    (hwf : WellFounded (depRel plan)) :
    ∀ completed, ∀ (i : ℕ) (L : List String),
      (begAux plan completed)[i]? = some L → ∀ s ∈ L,
      ∀ deps, (s, deps) ∈ plan → ∀ d ∈ deps,
        d ∈ completed ∨
          ∃ j, j < i ∧ ∃ L' : List String,
            (begAux plan completed)[j]? = some L' ∧ d ∈ L' := by
  refine begAux_rec plan _ ?_ ?_
  · intro completed hrem i L hL
    rw [begAux, dif_pos hrem] at hL; simp at hL
  · intro completed hrem ih i L hL s hs deps hdeps d hd
    have hstep : levelStep plan completed ≠ [] := levelStep_ne_nil hcl hwf hrem
    have hlvl : lvlOf plan completed = levelStep plan completed := if_neg hstep
    rw [begAux_eq_cons plan completed hrem] at hL
    cases i with
    | zero =>
      left
      rw [List.getElem?_cons_zero, Option.some_inj] at hL
      subst hL
      rw [hlvl] at hs
      obtain ⟨deps', hp', -, hdeps'⟩ := mem_levelStep.mp hs
      have : deps = deps' := deps_unique hk hdeps hp'
      exact hdeps' d (this ▸ hd)
    | succ i =>
      rw [List.getElem?_cons_succ] at hL
      rcases ih i L hL s hs deps hdeps d hd with hc | ⟨j, hj, L', hL', hdL'⟩
      · rcases List.mem_append.mp hc with hc | hc
        · exact Or.inl hc
        · refine Or.inr ⟨0, Nat.succ_pos _, lvlOf plan completed, ?_, hc⟩
          rw [begAux_eq_cons plan completed hrem, List.getElem?_cons_zero]
      · refine Or.inr ⟨j + 1, Nat.succ_lt_succ hj, L', ?_, hdL'⟩
        rw [begAux_eq_cons plan completed hrem, List.getElem?_cons_succ]
        exact hL'

/-- In a list of lists with `Nodup` flatten, an element pins down the index of
the (unique) sublist containing it. -/
theorem flatten_nodup_level_unique {α : Type} {ls : List (List α)}
    (h : ls.flatten.Nodup) :
    ∀ (i j : ℕ) (Li Lj : List α) (a : α), ls[i]? = some Li →
      ls[j]? = some Lj → a ∈ Li → a ∈ Lj → i = j := by
  induction ls with
  | nil => intro i j Li Lj a hi; simp at hi
  | cons L rest ih =>
    intro i j Li Lj a hi hj ha hb
    rw [List.flatten_cons, List.nodup_append] at h
    obtain ⟨hL, hrest, hdisj⟩ := h
    match i, j with
    | 0, 0 => rfl
    | 0, j + 1 =>
      exfalso
      rw [List.getElem?_cons_zero, Option.some_inj] at hi
      rw [List.getElem?_cons_succ] at hj
      subst hi
      exact hdisj ha
        (List.mem_flatten.mpr ⟨Lj, List.getElem?_mem hj, hb⟩)
    | i + 1, 0 =>
      exfalso
      rw [List.getElem?_cons_zero, Option.some_inj] at hj
      rw [List.getElem?_cons_succ] at hi
      subst hj
      exact hdisj hb
        (List.mem_flatten.mpr ⟨Li, List.getElem?_mem hi, ha⟩)
    | i + 1, j + 1 =>
      rw [List.getElem?_cons_succ] at hi hj
      exact congrArg Nat.succ (ih hrest i j Li Lj a hi hj ha hb)

/-- When no subtask qualifies yet some remain, the loop emits exactly one
final level holding all remaining subtasks and stops. -/
theorem begAux_fallback (plan : List (String × List String))
    (completed : List String) (hrem : remainingOf plan completed ≠ [])
    (hstep : levelStep plan completed = []) :
    begAux plan completed = [remainingOf plan completed] := by
  rw [begAux_eq_cons plan completed hrem]
  have hlvl : lvlOf plan completed = remainingOf plan completed := if_pos hstep
  rw [hlvl]
  have hdone : remainingOf plan (completed ++ remainingOf plan completed) = [] := by
    rw [remainingOf_append]
    apply List.filter_eq_nil_iff.mpr
    intro a ha; simp [ha]
  rw [begAux, dif_pos hdone]

/-- For any map with distinct keys, the flattened levels are a permutation of
the key set: every subtask is scheduled exactly once. -/
theorem beg_flatten_perm_keys (plan : List (String × List String))
    (hk : (keysOf plan).Nodup) :
    (build_execution_groups plan).flatten.Perm (keysOf plan) := by
  have hnd := begAux_flatten_nodup plan hk []
  rw [build_execution_groups, List.perm_ext_iff_of_nodup hnd hk]
  intro a
  have h := begAux_flatten_mem plan [] a
  rw [remainingOf_nil] at h
  exact h

/-- Acyclicity via a ranking function implies well-foundedness of the
dependency relation. -/
theorem depRel_wf_of_rank {plan : List (String × List String)}
    (rank : String → ℕ) (h : ∀ a b, depRel plan a b → rank a < rank b) :
    WellFounded (depRel plan) :=
  Subrelation.wf (fun {a b} hab => h a b hab) (InvImage.wf rank Nat.lt_wfRel.wf)

/-- Claim C3: for every dependency map with distinct keys, no cycles
(`depRel` well-founded) and every listed dependency itself a key of the map,
`build_execution_groups` produces levels whose flattening is a permutation
of the key set (each subtask appears in exactly one level, and the union of
the levels is the key set), and every subtask's level index is strictly
greater than the level index of each of its dependencies. -/
theorem claim_C3_leveler_partition_and_order
    (plan : List (String × List String))
    (hk : (keysOf plan).Nodup)
    (hcl : ∀ p ∈ plan, ∀ d ∈ p.2, d ∈ keysOf plan)
    (hwf : WellFounded (depRel plan)) :
    (build_execution_groups plan).flatten.Perm (keysOf plan) ∧
    ∀ (i j : ℕ) (Li Lj : List String) (s d : String) (deps : List String),
      (build_execution_groups plan)[i]? = some Li → s ∈ Li →
      (s, deps) ∈ plan → d ∈ deps →
      (build_execution_groups plan)[j]? = some Lj → d ∈ Lj → j < i := by
  have hnd := begAux_flatten_nodup plan hk []
  refine ⟨beg_flatten_perm_keys plan hk, ?_⟩
  intro i j Li Lj s d deps hi hsLi hsd hd hj hdLj
  rw [build_execution_groups] at hi hj
  have hdep := begAux_deps plan hk hcl hwf [] i Li hi s hsLi deps hsd d hd
  rcases hdep with hc | ⟨j', hj', L', hL', hdL'⟩
  · simp at hc
  · have : j = j' := flatten_nodup_level_unique hnd j j' Lj L' d hj hL' hdLj hdL'
    omega

/-- Witness for C3: its hypotheses hold at the spec's example map
`{extract: [], copywrite: [extract], seo: [extract]}`, and the partition
conclusion follows by applying the claim theorem there. -/
theorem claim_C3_witness :
    (build_execution_groups planSpecExample).flatten.Perm
      (keysOf planSpecExample) := by
  have hwf : WellFounded (depRel planSpecExample) := by
    apply depRel_wf_of_rank (fun s => if s = "extract" then 0 else 1)
    rintro a b ⟨p, hp, hfst, ha⟩
    subst hfst
    simp only [planSpecExample, List.mem_cons, List.not_mem_nil, or_false] at hp
    rcases hp with h | h | h <;> subst h
    · simp at ha
    · simp at ha; subst ha; decide
    · simp at ha; subst ha; decide
  exact (claim_C3_leveler_partition_and_order planSpecExample (by decide)
    (by decide) hwf).1

/-- Claim C6: the leveler terminates on every input (it is a total function
whose levels always cover the key set exactly once, cyclic maps and maps
naming unknown subtasks included); whenever an iteration finds no
qualifying subtask while some remain, all remaining subtasks are
force-scheduled together into one single final level; and on the cyclic map
`{a: [b], b: [a]}` it returns exactly one level containing both. -/
theorem claim_C6_leveler_termination_fallback :
    (∀ (plan : List (String × List String)) (completed : List String),
      remainingOf plan completed ≠ [] → levelStep plan completed = [] →
      begAux plan completed = [remainingOf plan completed]) ∧
    (∀ plan : List (String × List String), (keysOf plan).Nodup →
      (build_execution_groups plan).flatten.Perm (keysOf plan)) ∧
    build_execution_groups planCyc = [["a", "b"]] := by
  refine ⟨begAux_fallback, beg_flatten_perm_keys, ?_⟩
  simp [planCyc, build_execution_groups, begAux, remainingOf, levelStep, keysOf]

/-- Witness for C6: the fallback hypotheses hold concretely on the cyclic
two-subtask map. -/
theorem claim_C6_witness :
    begAux planCyc [] = [remainingOf planCyc []] :=
  claim_C6_leveler_termination_fallback.1 planCyc [] (by decide) (by decide)

/-! ### The result aggregator -/

/-- Claim C8: the aggregator is a function of its per-subtask outcomes map
alone (it is a pure Lean function of `results`, mirroring the side-effect-
free source): `total` counts the subtasks, `success`/`failed` count the
outcomes with the respective status, `success_rate = success/total` on
non-empty input, the `results`/`errors` maps hold the successful/failed
entries, and the aggregated output is the newline-join of
`subtask: output` over the successes.  The spec's concrete example is the
witness. -/
theorem claim_C8_aggregator_contract (results : List (String × TaskResult)) :
    (aggregate_results results).summary.total = results.length ∧
    (aggregate_results results).summary.success =
      (results.filter (fun kv => kv.2.status == "success")).length ∧
    (aggregate_results results).summary.failed =
      (results.filter (fun kv => kv.2.status == "failed")).length ∧
    (results ≠ [] →
      (aggregate_results results).summary.success_rate =
        ((aggregate_results results).summary.success : ℚ) /
          ((aggregate_results results).summary.total : ℚ)) ∧
    (aggregate_results results).results =
      results.filter (fun kv => kv.2.status == "success") ∧
    (aggregate_results results).errors =
      results.filter (fun kv => kv.2.status == "failed") ∧
    (aggregate_results results).aggregated_output =
      String.intercalate "\n"
        ((results.filter (fun kv => kv.2.status == "success")).map
          (fun kv => kv.1 ++ ": " ++ kv.2.result.getD "")) := by
  refine ⟨rfl, rfl, rfl, ?_, rfl, rfl, rfl⟩
  intro h
  simp only [aggregate_results]
  rw [if_neg (by simpa [List.isEmpty_iff] using h)]

/-- Witness for C8: the spec's example `{a: SUCCESS, b: FAILED}` has summary
`{total: 2, success: 1, failed: 1, success_rate: 1/2}`. -/
theorem claim_C8_witness :
    (aggregate_results exMapC8).summary.total = 2 ∧
    (aggregate_results exMapC8).summary.success = 1 ∧
    (aggregate_results exMapC8).summary.failed = 1 ∧
    (aggregate_results exMapC8).summary.success_rate = 1 / 2 := by
  have h := claim_C8_aggregator_contract exMapC8
  refine ⟨by rw [h.1]; rfl, by rw [h.2.1]; rfl, by rw [h.2.2.1]; rfl, ?_⟩
  have hr := h.2.2.2.1 (by decide)
  rw [hr, h.2.1, h.1]
  simp [exMapC8]

/-- Claim C10: on the empty outcomes map the aggregator returns the all-zero
summary (`success_rate = 0` by the emptiness guard, not by division) and an
empty aggregated output; moreover for every input map
`success_rate · total = success`, so the division branch only ever runs
with a non-zero denominator. -/
theorem claim_C10_aggregator_empty_guard :
    (aggregate_results []).summary =
      { total := 0, success := 0, failed := 0, success_rate := 0 } ∧
    (aggregate_results []).aggregated_output = "" ∧
    (aggregate_results []).results = [] ∧
    (aggregate_results []).errors = [] ∧
    ∀ results : List (String × TaskResult),
      (aggregate_results results).summary.success_rate *
        ((aggregate_results results).summary.total : ℚ) =
        ((aggregate_results results).summary.success : ℚ) := by
  refine ⟨rfl, rfl, rfl, rfl, ?_⟩
  intro results
  by_cases h : results = []
  · subst h; simp [aggregate_results]
  · simp only [aggregate_results]
    rw [if_neg (by simpa [List.isEmpty_iff] using h)]
    have hlen : ((results.length : ℚ)) ≠ 0 := by
      simpa using h
    exact div_mul_cancel₀ _ hlen

/-! ### The execution engine: circuit breaker and retries -/

theorem envGetHealth_delHealth_self (env : Env) (k : String) :
    envGetHealth (envDelHealth env k) k = none := by
  simp [envGetHealth, envDelHealth]

theorem runAttempts_all_fail :
    ∀ (n : ℕ) (env : Env),
      (∀ i, i < n → outcomeSuccess (env.script (env.calls + i)) = false) →
      runAttempts n env = (none, { env with calls := env.calls + n }) := by
  intro n
  induction n with
  | zero => intro env _; simp [runAttempts]
  | succ n ih =>
    intro env h
    have h0 := h 0 (Nat.succ_pos n)
    rw [Nat.add_zero] at h0
    have harg : ∀ i, { env with calls := env.calls + 1 }.calls + i =
        env.calls + (i + 1) := by intro i; simp; omega
    have hrec := ih { env with calls := env.calls + 1 } (by
      intro i hi
      rw [harg i]
      exact h (i + 1) (Nat.succ_lt_succ hi))
    have hcalls : { env with calls := env.calls + 1 }.calls + n =
        env.calls + (n + 1) := by simp; omega
    cases hscr : env.script env.calls with
    | raise m =>
      simp only [runAttempts, hscr, hrec, hcalls]
    | ret b o =>
      cases b with
      | true => rw [hscr] at h0; simp [outcomeSuccess] at h0
      | false => simp only [runAttempts, hscr, hrec, hcalls]

theorem runAttempts_first_success :
    ∀ (n : ℕ) (env : Env) (i : ℕ) (o : String),
      i < n → env.script (env.calls + i) = .ret true o →
      (∀ j, j < i → outcomeSuccess (env.script (env.calls + j)) = false) →
      runAttempts n env = (some o, { env with calls := env.calls + i + 1 }) := by
  intro n
  induction n with
  | zero => intro env i o hi; omega
  | succ n ih =>
    intro env i o hi hsucc hj
    cases i with
    | zero =>
      rw [Nat.add_zero] at hsucc
      simp only [runAttempts, hsucc]
    | succ i =>
      have h0 := hj 0 (Nat.succ_pos i)
      rw [Nat.add_zero] at h0
      have harg : ∀ m, { env with calls := env.calls + 1 }.calls + m =
          env.calls + (m + 1) := by intro m; simp; omega
      have hrec := ih { env with calls := env.calls + 1 } i o
        (by omega)
        (by rw [harg i]; exact hsucc)
        (by intro j hjlt; rw [harg j]; exact hj (j + 1) (Nat.succ_lt_succ hjlt))
      have hcalls : { env with calls := env.calls + 1 }.calls + i + 1 =
          env.calls + (i + 1) + 1 := by simp; omega
      cases hscr : env.script env.calls with
      | raise m =>
        simp only [runAttempts, hscr, hrec, hcalls]
      | ret b o' =>
        cases b with
        | true => rw [hscr] at h0; simp [outcomeSuccess] at h0
        | false => simp only [runAttempts, hscr, hrec, hcalls]

theorem runAttempts_calls_le :
    ∀ (n : ℕ) (env : Env), (runAttempts n env).2.calls ≤ env.calls + n := by
  intro n
  induction n with
  | zero => intro env; simp [runAttempts]
  | succ n ih =>
    intro env
    cases hscr : env.script env.calls with
    | raise m =>
      simp only [runAttempts, hscr]
      have := ih { env with calls := env.calls + 1 }
      simp at this; omega
    | ret b o =>
      cases b with
      | true => simp [runAttempts, hscr]
      | false =>
        simp only [runAttempts, hscr]
        have := ih { env with calls := env.calls + 1 }
        simp at this; omega

/-- With the circuit closed (counter at most 5 or absent), execution runs
the retry body. -/
theorem run_closed_of_closed (ag : SelAgent) (st : String) (mr : ℕ)
    (env : Env) (hcl : ∀ c, envGetHealth env ag.id = some c → c ≤ 5) :
    run_agent_in_sandbox ag st mr env = runClosedCircuit ag mr env := by
  cases hh : envGetHealth env ag.id with
  | none => simp only [run_agent_in_sandbox, hh]
  | some c =>
    have hle := hcl c hh
    simp only [run_agent_in_sandbox, hh]
    rw [if_neg (by omega : ¬ 5 < c)]

/-- Claim C4: the engine reads the shared failure counter first; a counter
above 5 inside the cool-down window short-circuits with a FAILED result,
leaving the state (and the backend invocation counter) untouched; a backend
success deletes the counter (subsequent reads see none, i.e. zero); an
exhausted retry budget increments the counter exactly once — not once per
attempt: the backend ran `mr` times while the counter rose by one — and
resets its expiry to `now + 300`; and concretely, after 6 runs against an
always-failing backend the counter reads 6 and the 7th call returns FAILED
without invoking the backend. -/
theorem claim_C4_circuit_breaker :
    (∀ (ag : SelAgent) (st : String) (mr : ℕ) (env : Env) (c : ℕ),
      envGetHealth env ag.id = some c → 5 < c →
      run_agent_in_sandbox ag st mr env =
        ({ status := "failed",
           error := some "Agent temporarily disabled due to high failure rate" },
          env)) ∧
    (∀ (ag : SelAgent) (st : String) (mr : ℕ) (env : Env),
      (run_agent_in_sandbox ag st mr env).1.status = "success" →
      envGetHealth (run_agent_in_sandbox ag st mr env).2 ag.id = none) ∧
    (∀ (ag : SelAgent) (st : String) (mr : ℕ) (env : Env),
      (∀ c, envGetHealth env ag.id = some c → c ≤ 5) →
      (∀ i, i < mr → outcomeSuccess (env.script (env.calls + i)) = false) →
      (run_agent_in_sandbox ag st mr env).1.status = "failed" ∧
      (run_agent_in_sandbox ag st mr env).2.health ag.id =
        some ((envGetHealth env ag.id).getD 0 + 1, env.now + 300) ∧
      (run_agent_in_sandbox ag st mr env).2.calls = env.calls + mr) ∧
    (envGetHealth (callOnce^[6] (envOf scriptAllFail)) agentA.id = some 6 ∧
      (run_agent_in_sandbox agentA "sub" 1
        (callOnce^[6] (envOf scriptAllFail))).1.status = "failed" ∧
      (run_agent_in_sandbox agentA "sub" 1
        (callOnce^[6] (envOf scriptAllFail))).2.calls =
        (callOnce^[6] (envOf scriptAllFail)).calls) := by
  refine ⟨?_, ?_, ?_, by decide⟩
  · intro ag st mr env c hc h5
    simp only [run_agent_in_sandbox, hc]
    rw [if_pos h5]
  · intro ag st mr env hs
    cases hh : envGetHealth env ag.id with
    | some c =>
      simp only [run_agent_in_sandbox, hh] at hs ⊢
      by_cases h5 : 5 < c
      · rw [if_pos h5] at hs; simp at hs
      · rw [if_neg h5] at hs ⊢
        rcases hr : runAttempts mr env with ⟨ro, renv⟩
        simp only [runClosedCircuit, hr] at hs ⊢
        cases ro with
        | some o => exact envGetHealth_delHealth_self renv ag.id
        | none => simp at hs
    | none =>
      simp only [run_agent_in_sandbox, hh] at hs ⊢
      rcases hr : runAttempts mr env with ⟨ro, renv⟩
      simp only [runClosedCircuit, hr] at hs ⊢
      cases ro with
      | some o => exact envGetHealth_delHealth_self renv ag.id
      | none => simp at hs
  · intro ag st mr env hcl hfail
    rw [run_closed_of_closed ag st mr env hcl]
    simp [runClosedCircuit, runAttempts_all_fail mr env hfail,
      envIncrExpire, envGetHealth]

/-- Witness for C4: the short-circuit branch fires at the concrete
environment whose counter for `agentA` reads 6. -/
theorem claim_C4_witness :
    run_agent_in_sandbox agentA "sub" 3 envOpen =
      ({ status := "failed",
         error := some "Agent temporarily disabled due to high failure rate" },
        envOpen) :=
  claim_C4_circuit_breaker.1 agentA "sub" 3 envOpen 6 (by decide) (by decide)

/-- Claim C7: with the circuit closed and a retry budget `n ≥ 1`, the engine
invokes the backend at most `n` times; when every attempt fails it returns
FAILED after exactly `n` invocations; and as soon as attempt `i` succeeds
it returns the SUCCESS dict after exactly `i + 1` invocations. -/
theorem claim_C7_retry (ag : SelAgent) (st : String) (n : ℕ) (env : Env)
    (hn : 1 ≤ n)
    (hcl : ∀ c, envGetHealth env ag.id = some c → c ≤ 5) :
    ((run_agent_in_sandbox ag st n env).2.calls - env.calls ≤ n) ∧
    ((∀ i, i < n → outcomeSuccess (env.script (env.calls + i)) = false) →
      (run_agent_in_sandbox ag st n env).1.status = "failed" ∧
      (run_agent_in_sandbox ag st n env).2.calls = env.calls + n) ∧
    (∀ (i : ℕ) (o : String), i < n → env.script (env.calls + i) = .ret true o →
      (∀ j, j < i → outcomeSuccess (env.script (env.calls + j)) = false) →
      (run_agent_in_sandbox ag st n env).1 =
        { status := "success", result := some o, agent_id := some ag.id } ∧
      (run_agent_in_sandbox ag st n env).2.calls = env.calls + i + 1) := by
  rw [run_closed_of_closed ag st n env hcl]
  refine ⟨?_, ?_, ?_⟩
  · rcases hr : runAttempts n env with ⟨ro, renv⟩
    have hle := runAttempts_calls_le n env
    rw [hr] at hle
    simp at hle
    simp only [runClosedCircuit, hr]
    cases ro with
    | some o => simp [envDelHealth]; omega
    | none => simp [envIncrExpire]; omega
  · intro hfail
    simp only [runClosedCircuit, runAttempts_all_fail n env hfail]
    exact ⟨trivial, by simp [envIncrExpire]⟩
  · intro i o hi hsucc hj
    simp only [runClosedCircuit, runAttempts_first_success n env i o hi hsucc hj]
    exact ⟨trivial, by simp [envDelHealth]⟩

/-! ### The agent selector -/

theorem mem_insertSorted {α : Type} (before : α → α → Bool) (x a : α) :
    ∀ l : List α, a ∈ VectorStore.insertSorted before x l ↔ a = x ∨ a ∈ l := by
  intro l
  induction l with
  | nil => simp [VectorStore.insertSorted]
  | cons y ys ih =>
    by_cases h : before x y
    · simp [VectorStore.insertSorted, h]
    · simp only [VectorStore.insertSorted, h, if_false, Bool.false_eq_true,
        List.mem_cons, ih]
      tauto

theorem length_insertSorted {α : Type} (before : α → α → Bool) (x : α) :
    ∀ l : List α, (VectorStore.insertSorted before x l).length = l.length + 1 := by
  intro l
  induction l with
  | nil => simp [VectorStore.insertSorted]
  | cons y ys ih =>
    by_cases h : before x y <;> simp [VectorStore.insertSorted, h, ih]

theorem length_sortStable {α : Type} (before : α → α → Bool) :
    ∀ l : List α, (VectorStore.sortStable before l).length = l.length := by
  intro l
  induction l with
  | nil => rfl
  | cons y ys ih => simp [VectorStore.sortStable, length_insertSorted, ih]

theorem mem_sortStable {α : Type} (before : α → α → Bool) (a : α) :
    ∀ l : List α, a ∈ VectorStore.sortStable before l ↔ a ∈ l := by
  intro l
  induction l with
  | nil => simp [VectorStore.sortStable]
  | cons y ys ih => simp [VectorStore.sortStable, mem_insertSorted, ih]

theorem pairwise_insertSorted_score (x : VectorStore.AgentRow)
    (l : List VectorStore.AgentRow)
    (h : l.Pairwise (fun a b => b.score ≤ a.score)) :
    (VectorStore.insertSorted (fun u v => decide (v.score < u.score)) x
      l).Pairwise (fun a b => b.score ≤ a.score) := by
  induction l with
  | nil => simp [VectorStore.insertSorted]
  | cons y ys ih =>
    rw [List.pairwise_cons] at h
    by_cases hxy : y.score < x.score
    · rw [VectorStore.insertSorted, if_pos (by simpa using hxy)]
      rw [List.pairwise_cons]
      constructor
      · intro z hz
        rcases List.mem_cons.mp hz with rfl | hz
        · exact le_of_lt hxy
        · exact (h.1 z hz).trans (le_of_lt hxy)
      · rw [List.pairwise_cons]; exact h
    · rw [VectorStore.insertSorted, if_neg (by simpa using hxy)]
      rw [List.pairwise_cons]
      constructor
      · intro z hz
        rcases (mem_insertSorted _ x z ys).mp hz with rfl | hz
        · exact le_of_not_lt hxy
        · exact h.1 z hz
      · exact ih h.2

theorem sortStable_score_pairwise :
    ∀ l : List VectorStore.AgentRow,
      (VectorStore.sortStable (fun u v => decide (v.score < u.score))
        l).Pairwise (fun a b => b.score ≤ a.score) := by
  intro l
  induction l with
  | nil => simp [VectorStore.sortStable]
  | cons y ys ih => exact pairwise_insertSorted_score y _ ih

/-- Each ranked agent carries exactly the source's blended score, computed
from its own (unchanged) fields. -/
theorem rank_agents_score (agents : List VectorStore.AgentRow) (qe : List ℚ) :
    ∀ a ∈ VectorStore.rank_agents agents qe,
      a.score = VectorStore.cosine_similarity qe a.embedding * (6/10) +
        a.reliability * (3/10) + 1 / (a.avg_latency + 1) * (1/10) := by
  intro a ha
  rw [VectorStore.rank_agents, mem_sortStable] at ha
  obtain ⟨ag, -, hfa⟩ := List.mem_map.mp ha
  subst hfa
  rfl

/-- Claim C2 (amended): the selector's final score is
`0.6·cosineSimilarity + 0.3·reliability + 0.1/(avg_latency + 1)` — not the
spec's `0.7·cosineSimilarity + 0.3·(reputation/100)` — and the returned
list is sorted in descending order of this score with at most `top_k`
entries (the truncation happens in the vector search, before ranking). -/
theorem claim_C2_selector_score_and_order (embed : String → List ℚ)
    (db : List VectorStore.AgentRow) (query : String) (k : ℕ) :
    (VectorStore.select_agents_for_intent embed db query k).length ≤ k ∧
    (VectorStore.select_agents_for_intent embed db query k).Pairwise
      (fun a b => b.score ≤ a.score) ∧
    ∀ a ∈ VectorStore.select_agents_for_intent embed db query k,
      a.score = VectorStore.cosine_similarity (embed query) a.embedding *
        (6/10) + a.reliability * (3/10) + 1 / (a.avg_latency + 1) * (1/10) := by
  refine ⟨?_, ?_, ?_⟩
  · rw [VectorStore.select_agents_for_intent]
    show (VectorStore.rank_agents _ _).length ≤ k
    rw [VectorStore.rank_agents, length_sortStable, List.length_map,
      VectorStore.semantic_search_agents]
    simpa using List.length_take_le k _
  · rw [VectorStore.select_agents_for_intent]
    show (VectorStore.rank_agents _ _).Pairwise _
    rw [VectorStore.rank_agents]
    exact sortStable_score_pairwise _
  · rw [VectorStore.select_agents_for_intent]
    exact rank_agents_score _ _

/-- Concrete evaluation of the selector on `agentRow0` and `embed0`: the
query embeds to `[1, 0]`, the agent's embedding is `[0, 1]` (cosine 0),
its reliability and latency are 0, so the blended score is `0.1`. -/
theorem select_agentRow0_eval :
    VectorStore.select_agents_for_intent embed0 [agentRow0] "task" 3 =
      [{ agentRow0 with score := 1/10 }] := by
  have hcos : VectorStore.cosine_similarity (embed0 "task")
      agentRow0.embedding = 0 := by
    have hdot : VectorStore.dot (embed0 "task") agentRow0.embedding = 0 := by
      simp [VectorStore.dot, embed0, agentRow0]
    simp [VectorStore.cosine_similarity, hdot]
  simp only [VectorStore.select_agents_for_intent,
    VectorStore.semantic_search_agents, VectorStore.sortStable,
    VectorStore.insertSorted, List.take, VectorStore.rank_agents, List.map]
  rw [hcos]
  norm_num [agentRow0]

/-- Counterexample for C2: for the concrete agent `agentRow0` and embedder
`embed0`, the selector's score is `0.1` while the spec's formula
`0.7·cosine + 0.3·(reputation/100)` yields `0`: the final score does not
follow the claimed formula. -/
theorem claim_C2_counterexample :
    ((VectorStore.select_agents_for_intent embed0 [agentRow0] "task" 3).map
      (fun a => a.score) = [1/10]) ∧
    ¬ ∀ a ∈ VectorStore.select_agents_for_intent embed0 [agentRow0] "task" 3,
        a.score = VectorStore.specFinalScore (embed0 "task") a := by
  constructor
  · rw [select_agentRow0_eval]; rfl
  · intro hall
    have h := hall _ (by rw [select_agentRow0_eval]; exact List.mem_singleton.mpr rfl)
    rw [VectorStore.specFinalScore] at h
    have hdot : VectorStore.dot (embed0 "task")
        ({ agentRow0 with score := 1/10 } : VectorStore.AgentRow).embedding = 0 := by
      simp [VectorStore.dot, embed0, agentRow0]
    rw [VectorStore.cosine_similarity, hdot] at h
    norm_num [agentRow0] at h

/-- Witness for C2 (amended): length bound and descending order hold at the
concrete selector input. -/
theorem claim_C2_witness :
    (VectorStore.select_agents_for_intent embed0 [agentRow0] "task" 3).length ≤ 3 ∧
    (VectorStore.select_agents_for_intent embed0 [agentRow0] "task" 3).Pairwise
      (fun a b => b.score ≤ a.score) :=
  ⟨(claim_C2_selector_score_and_order embed0 [agentRow0] "task" 3).1,
   (claim_C2_selector_score_and_order embed0 [agentRow0] "task" 3).2.1⟩

/-- Witness for C7: retry budget 3 against a backend failing twice then
succeeding gives SUCCESS with exactly 3 backend invocations. -/
theorem claim_C7_witness :
    (run_agent_in_sandbox agentA "sub" 3 (envOf scriptFailTwice)).1 =
      { status := "success", result := some "ok",
        agent_id := some "agent-1" } ∧
    (run_agent_in_sandbox agentA "sub" 3 (envOf scriptFailTwice)).2.calls = 3 := by
  have h := (claim_C7_retry agentA "sub" 3 (envOf scriptFailTwice)
    (by decide)
    (by intro c hc; simp [envOf, envGetHealth] at hc)).2.2 2 "ok"
    (by decide) (by decide) (by decide)
  exact ⟨h.1, by simpa [envOf] using h.2⟩

/-! ### Level dispatch and the state machine -/

/-- Claim C5 (the code diverges): in the level `[a, b]` where only `b` has a
selected agent, the group dispatches only `b` — whose own dispatch succeeds
and sits at index 0 of the group results — but the mapping-back loop reads
`level_results[1]` for `b` (its index in the full level), an out-of-range
access: `b` never receives the result of its own dispatch and the whole
level aborts with `IndexError`.  (`a` itself is recorded as FAILED
"No agent selected" without being dispatched, as the claim states.) -/
theorem claim_C5_sibling_misindexing :
    build_execution_groups planC5 = [["a", "b"]] ∧
    (dispatchGroup selC5 ["a", "b"] (envOf scriptAllOk)).1 =
      [{ status := "success", result := some "ok",
         agent_id := some "agent-1" }] ∧
    mapBackAux selC5
      [{ status := "success", result := some "ok", agent_id := some "agent-1" }]
      ["a", "b"] 0 = .error "IndexError: list index out of range" ∧
    (execute_subtasks_async planC5 selC5 (envOf scriptAllOk)).1 =
      .error "IndexError: list index out of range" := by
  refine ⟨?_, ?_, ?_, ?_⟩
  · simp [planC5, build_execution_groups, begAux, remainingOf, levelStep,
      keysOf]
  · simp [dispatchGroup, selC5, alookup, agentA, run_agent_in_sandbox,
      runClosedCircuit, runAttempts, envGetHealth, envDelHealth, envOf,
      scriptAllOk]
  · simp [mapBackAux, selC5, alookup, Except.map]
  · simp [execute_subtasks_async, executeLevels, dispatchGroup, mapBackAux,
      planC5, selC5, alookup, agentA, run_agent_in_sandbox, runClosedCircuit,
      runAttempts, envGetHealth, envDelHealth, envOf, scriptAllOk,
      build_execution_groups, begAux, remainingOf, levelStep, keysOf,
      Except.map]

/-- `selectLoop` never touches the parser-invocation counter. -/
theorem selectLoop_parserCalls (ext : Externals) :
    ∀ (l : List String) (w : World),
      (selectLoop ext l w).2.parserCalls = w.parserCalls := by
  intro l
  induction l with
  | nil => intro w; rfl
  | cons s rest ih =>
    intro w
    simp only [selectLoop]
    cases hc : alookup s w.agCache with
    | some cs =>
      cases cs with
      | nil =>
        cases hs : ext.selector s with
        | nil => exact ih _
        | cons a cs' => exact ih _
      | cons a cs' => exact ih _
    | none =>
      cases hs : ext.selector s with
      | nil => exact ih _
      | cons a cs' => exact ih _

/-- The pipeline past parsing never touches the parser-invocation
counter. -/
theorem orchestrateFrom_parserCalls (ext : Externals) (w : World)
    (o1 : OrchRec) (wf : Workflow) :
    (orchestrateFrom ext w o1 wf).2.parserCalls = w.parserCalls := by
  have hsel := selectLoop_parserCalls ext wf.subtasks
    { w with orch := some { o1 with subtasks := wf.subtasks } }
  simp only [orchestrateFrom]
  split
  · simpa [failWorld] using hsel
  · split
    · simpa [failWorld] using hsel
    · simpa using hsel

/-- Claim C1 (amended): re-invocation on a terminal orchestration is not a
no-op: `orchestrate_workflow` has no terminal-status guard, so whenever the
row exists with status COMPLETED and the workflow cache misses its user
input, it re-enters the pipeline and re-invokes the intent parser (and then
re-runs selection and dispatch, finally overwriting status and results —
the counterexample exhibits the overwrite concretely). -/
theorem claim_C1_reinvocation_reruns (ext : Externals) (w : World)
    (o : OrchRec) (hor : w.orch = some o)
    (hterm : o.current_status = "COMPLETED")
    (hmiss : alookup o.user_input w.wfCache = none) :
    (orchestrate_workflow ext w).2.parserCalls = w.parserCalls + 1 := by
  simp only [orchestrate_workflow, hor, hmiss]
  cases hp : ext.parser o.user_input with
  | error e => simp [failWorld]
  | ok wf => exact orchestrateFrom_parserCalls ext _ _ wf

/-- Witness for C1 (amended): the hypotheses hold at the concrete COMPLETED
world with a cold cache. -/
theorem claim_C1_witness :
    (orchestrate_workflow extOk worldCompleted).2.parserCalls =
      worldCompleted.parserCalls + 1 :=
  claim_C1_reinvocation_reruns extOk worldCompleted orchCompleted rfl rfl rfl

/-- Counterexample for C1: on an orchestration whose status is already
COMPLETED with stored results (summary total 0), re-invoking the state
machine re-runs parsing (counter 0 → 1), agent selection (0 → 1) and level
dispatch (backend invocations 0 → 1), and overwrites the stored results
(summary total now 1): not a no-op returning the existing results. -/
theorem claim_C1_counterexample :
    worldCompleted.orch.map (fun o => o.current_status) = some "COMPLETED" ∧
    (orchestrate_workflow extOk worldCompleted).2.parserCalls = 1 ∧
    (orchestrate_workflow extOk worldCompleted).2.selectorCalls = 1 ∧
    (orchestrate_workflow extOk worldCompleted).2.env.calls = 1 ∧
    (orchestrate_workflow extOk worldCompleted).2.orch.map
      (fun o => o.results.map (fun r => r.summary.total)) = some (some 1) ∧
    worldCompleted.orch.map
      (fun o => o.results.map (fun r => r.summary.total)) = some (some 0) := by
  refine ⟨rfl, ?_, ?_, ?_, ?_, rfl⟩ <;>
    simp [orchestrate_workflow, orchestrateFrom, selectLoop,
      execute_subtasks_async, executeLevels, dispatchGroup, mapBackAux,
      handle_failures_and_retries, aggregate_results, build_execution_groups,
      begAux, remainingOf, levelStep, keysOf, alookup, run_agent_in_sandbox,
      runClosedCircuit, runAttempts, envGetHealth, envDelHealth,
      envIncrExpire, envOf, scriptAllOk, agentA, extOk, wfSingle,
      worldCompleted, orchCompleted, failWorld, Except.map]

/-- Claim C9 (the code diverges): a subtask-level failure of the
kind "no agent selected" is not captured locally: the failover pass
evaluates `selected_agents[subtask]`, raising `KeyError`, which the
orchestration-level handler turns into status FAILED with no stored
results.  By contrast a failed subtask that does have an agent (and no
fallback) is captured into the outcomes map and the orchestration still
reaches COMPLETED — the claim's exception-to-FAILED direction. -/
theorem claim_C9_selection_empty_fails_orchestration :
    (orchestrate_workflow extNoAgents worldFresh).1 = .err "KeyError" ∧
    (orchestrate_workflow extNoAgents worldFresh).2.orch.map
      (fun o => o.current_status) = some "FAILED" ∧
    (orchestrate_workflow extNoAgents worldFresh).2.orch.map
      (fun o => o.results) = some none ∧
    (orchestrate_workflow extOk worldFreshFailing).2.orch.map
      (fun o => o.current_status) = some "COMPLETED" := by
  refine ⟨?_, ?_, ?_, ?_⟩ <;>
    simp [orchestrate_workflow, orchestrateFrom, selectLoop,
      execute_subtasks_async, executeLevels, dispatchGroup, mapBackAux,
      handle_failures_and_retries, aggregate_results, build_execution_groups,
      begAux, remainingOf, levelStep, keysOf, alookup, run_agent_in_sandbox,
      runClosedCircuit, runAttempts, envGetHealth, envDelHealth,
      envIncrExpire, envOf, scriptAllOk, scriptAllFail, agentA, extOk,
      extNoAgents, wfSingle, worldFresh, worldFreshFailing, orchFresh,
      failWorld, Except.map]

end Orchestrator
